import Mathlib

/-!
Shallow embedding of the news-collection core (`collect_news.py`) of the
health-trend-report program, together with proofs of the specified
properties.  Python strings are modelled as Lean `String`, `str.strip()`
as `trimStr`, `str.lower()` as `lowerStr`, substring tests (`"x" in s`)
as `hasSubStr`, and `str.rsplit(sep, 1)[0]` as taking the characters
before the last occurrence of the separator.  HTML documents are
modelled by the selections the parser actually performs on the soup
(`NaverDoc`, `Card`, `OldItem`); feed entries by `Entry`.  Network and
feed responses are universally quantified oracles, and the random
politeness delays are a stream `rand : Nat → Nat` threaded through the
collectors exactly at the `_sleep()` call sites of the source.
-/

/-- Python whitespace test on a character (models `str.strip`'s class). -/
def wsChar (c : Char) : Bool := c.isWhitespace

/-- `str.strip()` on the character list: drop whitespace from both ends. -/
def trimList (l : List Char) : List Char :=
  List.rdropWhile wsChar (List.dropWhile wsChar l)

/-- `str.strip()`. -/
def trimStr (s : String) : String := ⟨trimList s.data⟩

/-- `str.lower()` (character-wise lowering). -/
def lowerStr (s : String) : String := ⟨s.data.map Char.toLower⟩

/-- `pat in s` on character lists: some position of `l` starts with `pat`. -/
def hasSub (pat l : List Char) : Bool :=
  (List.range (l.length + 1)).any (fun i => pat.isPrefixOf (l.drop i))

/-- Python's `pat in s` substring test. -/
def hasSubStr (pat s : String) : Bool := hasSub pat.data s.data

/-- Index of the last occurrence of `sep` in `l` (what `rsplit(sep, 1)`
splits at), `none` when `sep` does not occur. -/
def lastSepIdx (sep l : List Char) : Option Nat :=
  ((List.range l.length).filter (fun i => sep.isPrefixOf (l.drop i))).getLast?

/-- Feed-source title cleanup (`collect_news.py` line 87):
`raw.rsplit(" - ", 1)[0] if " - " in raw else raw`. -/
def cleanTitle (s : String) : String :=
  if hasSub " - ".data s.data then
    match lastSepIdx " - ".data s.data with
    | some i => ⟨s.data.take i⟩
    | none => s
  else s

/-- The unified output record (spec §3 `Article`); every field a string,
exactly the keys of the dicts built in `collect_news.py`. -/
structure Article where
  date : String
  source : String
  query : String
  title : String
  description : String
  link : String
  published : String
deriving DecidableEq, Repr

/-- Dedup key (`collect_news.py` line 257): `article["title"].strip().lower()`. -/
def dedupKey (a : Article) : String := lowerStr (trimStr a.title)

/-- The dedup loop of `collect_all_news` (lines 254-260), with the `seen`
set modelled as the list of keys added so far. -/
def dedupGo (seen : List String) : List Article → List Article
  | [] => []
  | a :: rest =>
    if dedupKey a ≠ "" ∧ dedupKey a ∉ seen then
      a :: dedupGo (dedupKey a :: seen) rest
    else
      dedupGo seen rest

/-- Title-based duplicate removal as performed by `collect_all_news`. -/
def dedup (l : List Article) : List Article := dedupGo [] l

/-- Modelled from the spec (§4.5 Deduplicator): keep the first occurrence
of each non-empty dedup key, dropping empty keys and later duplicates. -/
def specDedup : List Article → List Article
  | [] => []
  | a :: rest =>
    if dedupKey a = "" then specDedup rest
    else a :: specDedup (rest.filter (fun b => dedupKey b != dedupKey a))
termination_by l => l.length
decreasing_by
  · simp
  · have h := List.length_filter_le (fun b => dedupKey b != dedupKey a) rest
    simp only [List.length_cons]
    omega

theorem strBeqDecide (a b : String) : (a == b) = decide (a = b) := by
  cases h : decide (a = b)
  · simp at h; simp [h]
  · simp at h; simp [h]

theorem dedupGo_spec (l : List Article) :
    ∀ seen : List String,
      dedupGo seen l = specDedup (l.filter (fun a => !seen.contains (dedupKey a))) := by
  induction l with
  | nil => intro seen; simp [dedupGo, specDedup]
  | cons a rest ih =>
    intro seen
    by_cases hseen : dedupKey a ∈ seen
    · have hc : seen.contains (dedupKey a) = true := List.elem_eq_true_of_mem hseen
      rw [dedupGo, if_neg (fun h => h.2 hseen), List.filter_cons,
        if_neg (by simpa using hseen), ih]
    · have hc : seen.contains (dedupKey a) = false := by
        by_contra h
        exact hseen (List.mem_of_elem_eq_true (by simpa using h))
      by_cases hk : dedupKey a = ""
      · rw [dedupGo, if_neg (fun h => h.1 hk), List.filter_cons,
          if_pos (by simpa using hseen), specDedup, if_pos hk, ih]
      · rw [dedupGo, if_pos ⟨hk, hseen⟩, List.filter_cons, if_pos (by simpa using hseen),
          specDedup, if_neg hk, ih, List.filter_filter]
        have hfEq : List.filter (fun b => !(dedupKey a :: seen).contains (dedupKey b)) rest
            = List.filter (fun b => dedupKey b != dedupKey a && !seen.contains (dedupKey b))
              rest := by
          apply List.filter_congr
          intro b _
          simp [List.contains_cons, Bool.not_or, bne, strBeqDecide]
        rw [hfEq]

/-- The attempt loop of `_get` (`collect_news.py` lines 46-57).  The
`oracle` gives the outcome of HTTP attempt `i` (`some body` on a 2xx
response, `none` on a transport error or non-2xx status, the caught
`requests.RequestException`).  Returns the first successful body (or
`none` when every attempt fails) together with the list of backoff
sleeps, `2 ^ attempt` seconds after each failed non-final attempt. -/
def retryGo {β : Type} (oracle : Nat → Option β) : Nat → Nat → Option β × List Nat
  | _, 0 => (none, [])
  | attempt, fuel + 1 =>
    match oracle attempt with
    | some r => (some r, [])
    | none =>
      if fuel = 0 then (none, [])
      else
        let r := retryGo oracle (attempt + 1) fuel
        (r.1, 2 ^ attempt :: r.2)

/-- `_get url`: attempts numbered `1 .. maxRetries` as in
`range(1, MAX_RETRIES + 1)`. -/
def getWithRetry {β : Type} (oracle : Nat → Option β) (maxRetries : Nat) :
    Option β × List Nat :=
  retryGo oracle 1 maxRetries

/-- An `<a href=...>` element: its rendered text and `href` attribute. -/
structure Anchor where
  text : String
  href : String
deriving DecidableEq, Repr

/-- A current-layout result container (`div.YWTMk0ahJUsxq4uCx9gX`):
its `<a href>` descendants and the texts of its
`span.sds-comps-profile-info-subtext` children. -/
structure Card where
  anchors : List Anchor
  infoSpans : List String
deriving DecidableEq, Repr

/-- A legacy-layout result item (`li.bx` / `div.news_wrap`): the optional
`a.news_tit` anchor, the three description selectors in priority order
and the two date selectors in priority order (text of the first match). -/
structure OldItem where
  titleTag : Option Anchor
  descA : Option String
  descB : Option String
  descC : Option String
  dateA : Option String
  dateB : Option String
deriving DecidableEq, Repr

/-- A parsed search-result page: the container selections
`_parse_naver_page` performs on the soup.  `newCards` is the
current-layout selection, `oldA`/`oldB` the two legacy selections
(`ul.list_news > li.bx` and `div.news_wrap`). -/
structure NaverDoc where
  newCards : List Card
  oldA : List OldItem
  oldB : List OldItem
deriving DecidableEq, Repr

/-- `_UI_TITLES` (`collect_news.py` line 154). -/
def uiTitles : List String := ["네이버뉴스", "Keep에 저장", "뉴스", ""]

/-- `_time_keywords` (`collect_news.py` line 146). -/
def timeKeywords : List String := ["분 전", "시간 전", "일 전", "어제", "방금"]

/-- The candidate-link filter of the current layout (lines 128-132). -/
def isArticleLink (a : Anchor) : Bool :=
  hasSubStr "articleView" a.href || hasSubStr "n.news.naver.com" a.href

/-- Current-layout processing of one container (lines 126-167): first
candidate link is title + link, second (if any) is description, first
info-span with a relative-time keyword is `published`, then the
UI-title quality filter. -/
def newCardItems (q today : String) (card : Card) : List Article :=
  match card.anchors.filter isArticleLink with
  | [] => []
  | t :: restL =>
    let title := trimStr t.text
    let desc := match restL with
      | [] => ""
      | d :: _ => trimStr d.text
    let published :=
      ((card.infoSpans.map trimStr).find?
        (fun txt => timeKeywords.any (fun k => hasSubStr k txt))).getD today
    if title.length < 5 ∨ title ∈ uiTitles then []
    else if title ≠ "" then
      [⟨today, "naver", q, title, desc, t.href, published⟩]
    else []

/-- Legacy-layout processing of one item (lines 173-197). -/
def oldItemArticle (q today : String) (it : OldItem) : List Article :=
  match it.titleTag with
  | none => []
  | some t =>
    let desc := ((it.descA <|> it.descB <|> it.descC).map trimStr).getD ""
    let published := ((it.dateA <|> it.dateB).map trimStr).getD today
    [⟨today, "naver", q, trimStr t.text, desc, t.href, published⟩]

/-- `_parse_naver_page` (lines 116-199): if the current-layout container
selection is non-empty, only current-layout rules run (the function
returns inside that branch); otherwise the legacy selections are used,
`oldA` falling back to `oldB` via Python's `or` when `oldA` is empty. -/
def parse_naver_page (doc : NaverDoc) (q today : String) : List Article :=
  if doc.newCards.isEmpty then
    let olds := if doc.oldA.isEmpty then doc.oldB else doc.oldA
    olds.flatMap (oldItemArticle q today)
  else
    doc.newCards.flatMap (newCardItems q today)

/-- State of the per-query pagination loop of `collect_naver_news`:
collected articles, pages actually fetched, next index into the random
politeness-delay stream, and the delays drawn so far. -/
structure PState where
  arts : List Article
  fetched : List Nat
  pos : Nat
  delays : List Nat
deriving Repr

/-- The page loop of `collect_naver_news` for one query (lines 211-233).
`fetchO p i` is the outcome of HTTP attempt `i` for page `p` (the page
maps to URL offset `p * 10 + 1`; the URL template is injective in the
page number, so pages index the oracle directly).  Breaks on a fetch
with no result, on a page parsing to zero items, and after the page on
which the running count reaches the cap; otherwise sleeps one random
delay and continues. -/
def naverQueryGo (fetchO : Nat → Nat → Option NaverDoc) (maxRetries : Nat) (q today : String)
    (cap : Nat) (rand : Nat → Nat) : Nat → Nat → List Nat → PState
  | _, pos, [] => ⟨[], [], pos, []⟩
  | count, pos, p :: rest =>
    match (retryGo (fetchO p) 1 maxRetries).1 with
    | none => ⟨[], [p], pos, []⟩
    | some doc =>
      let items := parse_naver_page doc q today
      if items.isEmpty then ⟨[], [p], pos, []⟩
      else if cap ≤ count + items.length then ⟨items, [p], pos, []⟩
      else
        let r := naverQueryGo fetchO maxRetries q today cap rand
          (count + items.length) (pos + 1) rest
        ⟨items ++ r.arts, p :: r.fetched, r.pos, rand pos :: r.delays⟩

/-- State of a whole-collector run: articles, next delay-stream index,
delays drawn. -/
structure CState where
  arts : List Article
  pos : Nat
  delays : List Nat
deriving Repr

/-- `collect_naver_news` (lines 202-238): the per-query page loop over
`range(MAX_PAGES_PER_QUERY)`, then one politeness delay per query. -/
def collect_naver_news (fetchO : String → Nat → Nat → Option NaverDoc) (maxRetries : Nat)
    (today : String) (cap maxPages : Nat) (rand : Nat → Nat) : List String → Nat → CState
  | [], pos => ⟨[], pos, []⟩
  | q :: qs, pos =>
    let r := naverQueryGo (fetchO q) maxRetries q today cap rand 0 pos (List.range maxPages)
    let rest := collect_naver_news fetchO maxRetries today cap maxPages rand qs (r.pos + 1)
    ⟨r.arts ++ rest.arts, rest.pos, r.delays ++ rand r.pos :: rest.delays⟩

/-- A syndication feed entry as read by `collect_google_news`
(`entry.get` fields; `none` models a missing key). -/
structure Entry where
  title : Option String
  summary : Option String
  link : Option String
  published : Option String
deriving DecidableEq, Repr

/-- Normalization of one feed entry (lines 85-104).  `getText` models
`BeautifulSoup(raw, "lxml").get_text(" ", strip=True)`, the external
markup-stripping primitive applied to the summary. -/
def entryArticle (getText : String → String) (q today : String) (e : Entry) : Article :=
  { date := today
    source := "google"
    query := q
    title := cleanTitle (trimStr (e.title.getD ""))
    description := getText (e.summary.getD "")
    link := e.link.getD ""
    published := e.published.getD today }

/-- `collect_google_news` (lines 64-109).  `feeds q` is the parsed feed
for a query, `none` modelling a `feedparser` exception (the query is
skipped).  Each query appends at most `cap` entries and consumes exactly
one politeness delay on both the success and the exception path. -/
def collect_google_news (feeds : String → Option (List Entry)) (getText : String → String)
    (today : String) (cap : Nat) (rand : Nat → Nat) : List String → Nat → CState
  | [], pos => ⟨[], pos, []⟩
  | q :: qs, pos =>
    let rest := collect_google_news feeds getText today cap rand qs (pos + 1)
    match feeds q with
    | none => ⟨rest.arts, rest.pos, rand pos :: rest.delays⟩
    | some entries =>
      ⟨(entries.take cap).map (entryArticle getText q today) ++ rest.arts,
        rest.pos, rand pos :: rest.delays⟩

/-- `collect_all_news` (lines 245-266): page source, then feed source,
concatenate, dedup.  Also returns the full list of politeness delays
drawn from `rand` (which influence timing only). -/
def collect_all_news (fetchO : String → Nat → Nat → Option NaverDoc)
    (feeds : String → Option (List Entry)) (getText : String → String)
    (queries : List String) (today : String) (cap maxPages maxRetries : Nat)
    (rand : Nat → Nat) : List Article × List Nat :=
  let n := collect_naver_news fetchO maxRetries today cap maxPages rand queries 0
  let g := collect_google_news feeds getText today cap rand queries n.pos
  (dedup (n.arts ++ g.arts), n.delays ++ g.delays)

/-- The fatal-stop decision of `main` (`main.py` lines 145-148):
`if not articles: sys.exit(1)`. -/
def mainAborts (fetchO : String → Nat → Nat → Option NaverDoc)
    (feeds : String → Option (List Entry)) (getText : String → String)
    (queries : List String) (today : String) (cap maxPages maxRetries : Nat)
    (rand : Nat → Nat) : Bool :=
  (collect_all_news fetchO feeds getText queries today cap maxPages maxRetries rand).1.isEmpty

theorem getLastSomeMem {α : Type} {l : List α} {j : α} (h : l.getLast? = some j) : j ∈ l := by
  have hj : j ∈ l.getLast? := by simp [h, Option.mem_def]
  obtain ⟨hne, rfl⟩ := List.mem_getLast?_eq_getLast hj
  exact List.getLast_mem hne

theorem pairwiseLtLast {l : List Nat} {j : Nat} (hp : l.Pairwise (· < ·))
    (h : l.getLast? = some j) : ∀ x ∈ l, x ≤ j := by
  induction l with
  | nil => intro x hx; cases hx
  | cons a t ih =>
    intro x hx
    cases t with
    | nil =>
      have hxa : x = a := by simpa using hx
      have hja : a = j := by simpa using h
      omega
    | cons b t' =>
      rw [List.getLast?_cons_cons] at h
      rcases List.mem_cons.mp hx with rfl | hx'
      · have hj : j ∈ b :: t' := getLastSomeMem h
        have := (List.pairwise_cons.mp hp).1 j hj
        omega
      · exact ih (List.pairwise_cons.mp hp).2 h x hx'

theorem sepOccLtLen {pat l : List Char} {i : Nat} (hpat : pat ≠ [])
    (h : pat.isPrefixOf (l.drop i) = true) : i < l.length := by
  by_contra h'
  push_neg at h'
  rw [List.drop_eq_nil_of_le h', List.isPrefixOf_iff_prefix] at h
  exact hpat (List.prefix_nil.mp h)

theorem hasSub_iff_exists {pat l : List Char} (hpat : pat ≠ []) :
    hasSub pat l = true ↔ ∃ i, pat.isPrefixOf (l.drop i) = true := by
  constructor
  · intro h
    obtain ⟨i, _, hp⟩ := List.any_eq_true.mp h
    exact ⟨i, hp⟩
  · rintro ⟨i, hp⟩
    apply List.any_eq_true.mpr
    exact ⟨i, List.mem_range.mpr (Nat.lt_succ_of_lt (sepOccLtLen hpat hp)), hp⟩

theorem lastSepIdx_spec {pat l : List Char} {j : Nat} (hpat : pat ≠ [])
    (h : lastSepIdx pat l = some j) :
    pat.isPrefixOf (l.drop j) = true ∧ ∀ k, j < k → pat.isPrefixOf (l.drop k) = false := by
  have hjmem : j ∈ (List.range l.length).filter (fun i => pat.isPrefixOf (l.drop i)) :=
    getLastSomeMem h
  have hj := List.mem_filter.mp hjmem
  refine ⟨hj.2, fun k hk => ?_⟩
  by_contra hcon
  rw [Bool.not_eq_false] at hcon
  have hklen : k < l.length := sepOccLtLen hpat hcon
  have hkmem : k ∈ (List.range l.length).filter (fun i => pat.isPrefixOf (l.drop i)) :=
    List.mem_filter.mpr ⟨List.mem_range.mpr hklen, hcon⟩
  have hle := pairwiseLtLast ((List.pairwise_lt_range l.length).filter _) h k hkmem
  omega

theorem lastSepIdx_of_hasSub {pat l : List Char} (hpat : pat ≠ [])
    (h : hasSub pat l = true) : ∃ j, lastSepIdx pat l = some j := by
  obtain ⟨i, hp⟩ := (hasSub_iff_exists hpat).mp h
  have himem : i ∈ (List.range l.length).filter (fun i => pat.isPrefixOf (l.drop i)) :=
    List.mem_filter.mpr ⟨List.mem_range.mpr (sepOccLtLen hpat hp), hp⟩
  have hne := List.ne_nil_of_mem himem
  obtain ⟨j, hj⟩ := Option.isSome_iff_exists.mp (List.getLast?_isSome.mpr hne)
  exact ⟨j, hj⟩

theorem sepNe : " - ".data ≠ [] := by decide

/-- C2: on the concatenation of page-source results and feed-source
results, the dedup of `collect_all_news` computes key
`lowercase(trim(title))`, drops empty and repeated keys, and returns
exactly the first occurrence of each non-empty key in order (so a
page-source record wins a tie with a later feed-source record). -/
theorem dedupFirstOccurrences (page feed : List Article) :
    dedup (page ++ feed) = specDedup (page ++ feed) := by
  rw [dedup, dedupGo_spec]
  congr 1
  simp

theorem retryGo_success {β : Type} (oracle : Nat → Option β) (r : β) :
    ∀ fuel a N, a ≤ N → N < a + fuel → (∀ i, a ≤ i → i < N → oracle i = none) →
      oracle N = some r →
      retryGo oracle a fuel = (some r, (List.range' a (N - a)).map (2 ^ ·)) := by
  intro fuel
  induction fuel with
  | zero => intro a N h1 h2; omega
  | succ fuel ih =>
    intro a N h1 h2 hfail hsucc
    by_cases ha : a = N
    · subst ha
      simp [retryGo, hsucc, Nat.sub_self]
    · have haN : a < N := by omega
      have h0 : oracle a = none := hfail a (Nat.le_refl a) haN
      have hfuel : fuel ≠ 0 := by omega
      rw [retryGo, h0]
      simp only [if_neg hfuel]
      rw [ih (a + 1) N (by omega) (by omega)
        (fun i hi1 hi2 => hfail i (by omega) hi2) hsucc]
      have hrange : List.range' a (N - a) = a :: List.range' (a + 1) (N - (a + 1)) := by
        have : N - a = (N - (a + 1)) + 1 := by omega
        rw [this, List.range'_succ]
      rw [hrange]
      simp

theorem retryGo_allfail {β : Type} (oracle : Nat → Option β) :
    ∀ fuel a, (∀ i, a ≤ i → i < a + fuel → oracle i = none) →
      retryGo oracle a fuel = (none, (List.range' a (fuel - 1)).map (2 ^ ·)) := by
  intro fuel
  induction fuel with
  | zero => intro a _; simp [retryGo]
  | succ fuel ih =>
    intro a hfail
    have h0 : oracle a = none := hfail a (Nat.le_refl a) (by omega)
    rw [retryGo, h0]
    by_cases hfuel : fuel = 0
    · subst hfuel; simp
    · simp only [if_neg hfuel]
      rw [ih (a + 1) (fun i hi1 hi2 => hfail i (by omega) (by omega))]
      have hrange : List.range' a ((fuel + 1) - 1) = a :: List.range' (a + 1) (fuel - 1) := by
        have : (fuel + 1) - 1 = (fuel - 1) + 1 := by omega
        rw [this, List.range'_succ]
      rw [hrange]
      simp

/-- C3: if attempts `1 .. N-1` fail and attempt `N ≤ maxRetries`
succeeds, `_get` returns the successful response after sleeping exactly
`2^1, …, 2^(N-1)` seconds between consecutive attempts (none after the
last); if all `maxRetries` attempts fail it returns `none` — a value,
never an exception. -/
theorem getRetryBehaviour :
    (∀ (β : Type) (oracle : Nat → Option β) (maxR N : Nat) (r : β),
      1 ≤ N → N ≤ maxR → (∀ i, 1 ≤ i → i < N → oracle i = none) → oracle N = some r →
      getWithRetry oracle maxR = (some r, (List.range' 1 (N - 1)).map (2 ^ ·))) ∧
    (∀ (β : Type) (oracle : Nat → Option β) (maxR : Nat),
      (∀ i, 1 ≤ i → i ≤ maxR → oracle i = none) →
      getWithRetry oracle maxR = (none, (List.range' 1 (maxR - 1)).map (2 ^ ·))) := by
  constructor
  · intro β oracle maxR N r h1 h2 hfail hsucc
    exact retryGo_success oracle r maxR 1 N h1 (by omega) hfail hsucc
  · intro β oracle maxR hfail
    exact retryGo_allfail oracle maxR 1 (fun i hi1 hi2 => hfail i hi1 (by omega))

/-- Witness for C3: a concrete oracle failing on attempt 1 and
succeeding on attempt 2 of 3 yields the response after one 2-second
sleep; a concrete always-failing oracle yields `none` after sleeps 2, 4. -/
theorem getRetryBehaviourWitness :
    getWithRetry (fun i => if i = 2 then some "ok" else none) 3 = (some "ok", [2]) ∧
    getWithRetry (fun _ : Nat => (none : Option String)) 3 = (none, [2, 4]) := by
  constructor
  · have h := getRetryBehaviour.1 String (fun i => if i = 2 then some "ok" else none) 3 2 "ok"
      (by omega) (by omega)
      (fun i hi1 hi2 => by
        have : i = 1 := by omega
        subst this
        rfl)
      rfl
    simpa using h
  · have h := getRetryBehaviour.2 String (fun _ => none) 3 (fun i _ _ => rfl)
    simpa using h

/-- C9: the feed-source title cleanup returns the prefix before the
last occurrence of the literal `" - "` when it occurs, and the title
unchanged otherwise; in particular
`"Flu season hits hard - HealthDaily"` becomes `"Flu season hits hard"`. -/
theorem titleSuffixStrip :
    (∀ s : String, hasSubStr " - " s = false → cleanTitle s = s) ∧
    (∀ s : String, hasSubStr " - " s = true →
      ∃ j, " - ".data.isPrefixOf (s.data.drop j) = true ∧
        (∀ k, j < k → " - ".data.isPrefixOf (s.data.drop k) = false) ∧
        cleanTitle s = ⟨s.data.take j⟩) ∧
    cleanTitle "Flu season hits hard - HealthDaily" = "Flu season hits hard" := by
  refine ⟨?_, ?_, by decide⟩
  · intro s h
    have hb : hasSub " - ".data s.data = false := h
    simp [cleanTitle, hb]
  · intro s h
    have hb : hasSub " - ".data s.data = true := h
    obtain ⟨j, hj⟩ := lastSepIdx_of_hasSub sepNe hb
    obtain ⟨h1, h2⟩ := lastSepIdx_spec sepNe hj
    exact ⟨j, h1, h2, by simp [cleanTitle, hb, hj]⟩

/-- Witness for C9 at concrete titles with and without the separator. -/
theorem titleSuffixStripWitness :
    cleanTitle "influenza" = "influenza" ∧
    (∃ j, " - ".data.isPrefixOf ("a - b".data.drop j) = true ∧
      (∀ k, j < k → " - ".data.isPrefixOf ("a - b".data.drop k) = false) ∧
      cleanTitle "a - b" = ⟨"a - b".data.take j⟩) :=
  ⟨titleSuffixStrip.1 "influenza" (by decide), titleSuffixStrip.2.1 "a - b" (by decide)⟩

/-- The legacy-layout result of `_parse_naver_page` (lines 171-199),
including the `or` fallback between the two legacy container selectors. -/
def legacyItems (doc : NaverDoc) (q today : String) : List Article :=
  (if doc.oldA.isEmpty then doc.oldB else doc.oldA).flatMap (oldItemArticle q today)

/-- C6: the dual-layout parser uses exactly one layout: documents with
the same (non-empty) current-layout containers parse identically no
matter what legacy markup they contain; with containers present only
current-layout rules produce the items (even when every container is
filtered out); the legacy layout runs only when the current-layout
selection is empty. -/
theorem layoutExclusivity :
    (∀ (d1 d2 : NaverDoc) (q today : String), d1.newCards = d2.newCards →
      d1.newCards ≠ [] → parse_naver_page d1 q today = parse_naver_page d2 q today) ∧
    (∀ (d : NaverDoc) (q today : String), d.newCards ≠ [] →
      parse_naver_page d q today = d.newCards.flatMap (newCardItems q today)) ∧
    (∀ (d : NaverDoc) (q today : String), d.newCards = [] →
      parse_naver_page d q today = legacyItems d q today) := by
  refine ⟨?_, ?_, ?_⟩
  · intro d1 d2 q today heq hne
    have h1 : d1.newCards.isEmpty = false := by
      simpa [List.isEmpty_iff] using hne
    have h2 : d2.newCards.isEmpty = false := by
      rw [← heq] at *
      exact h1
    simp [parse_naver_page, h1, h2, heq]
  · intro d q today hne
    have h1 : d.newCards.isEmpty = false := by
      simpa [List.isEmpty_iff] using hne
    simp [parse_naver_page, h1]
  · intro d q today he
    simp [parse_naver_page, he, legacyItems]

/-- A document holding one current-layout container (whose links are all
filtered out) next to fully-formed legacy markup. -/
def docWithBoth : NaverDoc :=
  ⟨[⟨[⟨"ad text", "https://ad.example.com"⟩], []⟩],
    [⟨some ⟨"Legacy headline here", "https://old.example.com/1"⟩,
      some "legacy desc", none, none, some "2024.01.01.", none⟩], []⟩

/-- Witness for C6: on `docWithBoth` the parser uses only the
current-layout rules (yielding nothing — the single candidate container
has no article link) although legacy markup that would parse is present. -/
theorem layoutExclusivityWitness :
    parse_naver_page docWithBoth "flu" "2026-02-03"
        = docWithBoth.newCards.flatMap (newCardItems "flu" "2026-02-03") ∧
    parse_naver_page docWithBoth "flu" "2026-02-03" = [] ∧
    legacyItems docWithBoth "flu" "2026-02-03" ≠ [] := by
  refine ⟨layoutExclusivity.2.1 docWithBoth "flu" "2026-02-03" (by decide), by decide, by decide⟩

theorem naverQueryGo_nil (fO : Nat → Nat → Option NaverDoc) (maxR : Nat) (q today : String)
    (cap : Nat) (rand : Nat → Nat) (count pos : Nat) :
    naverQueryGo fO maxR q today cap rand count pos [] = ⟨[], [], pos, []⟩ := rfl

theorem naverQueryGo_cons_none {fO : Nat → Nat → Option NaverDoc} {maxR : Nat} {p : Nat}
    (q today : String) (cap : Nat) (rand : Nat → Nat) (count pos : Nat) (rest : List Nat)
    (hres : (retryGo (fO p) 1 maxR).1 = none) :
    naverQueryGo fO maxR q today cap rand count pos (p :: rest) = ⟨[], [p], pos, []⟩ := by
  simp [naverQueryGo, hres]

theorem naverQueryGo_cons_empty {fO : Nat → Nat → Option NaverDoc} {maxR : Nat} {p : Nat}
    {doc : NaverDoc} {q today : String} (cap : Nat) (rand : Nat → Nat) (count pos : Nat)
    (rest : List Nat) (hres : (retryGo (fO p) 1 maxR).1 = some doc)
    (hempty : parse_naver_page doc q today = []) :
    naverQueryGo fO maxR q today cap rand count pos (p :: rest) = ⟨[], [p], pos, []⟩ := by
  simp [naverQueryGo, hres, hempty]

theorem naverQueryGo_cons_cap {fO : Nat → Nat → Option NaverDoc} {maxR : Nat} {p : Nat}
    {doc : NaverDoc} {q today : String} {cap : Nat} (rand : Nat → Nat) {count : Nat}
    (pos : Nat) (rest : List Nat) (hres : (retryGo (fO p) 1 maxR).1 = some doc)
    (hne : parse_naver_page doc q today ≠ [])
    (hcap : cap ≤ count + (parse_naver_page doc q today).length) :
    naverQueryGo fO maxR q today cap rand count pos (p :: rest)
      = ⟨parse_naver_page doc q today, [p], pos, []⟩ := by
  have h1 : (parse_naver_page doc q today).isEmpty = false := by
    simpa [List.isEmpty_iff] using hne
  simp [naverQueryGo, hres, h1, hcap]

theorem naverQueryGo_cons_cont {fO : Nat → Nat → Option NaverDoc} {maxR : Nat} {p : Nat}
    {doc : NaverDoc} {q today : String} {cap : Nat} (rand : Nat → Nat) {count : Nat}
    (pos : Nat) (rest : List Nat) (hres : (retryGo (fO p) 1 maxR).1 = some doc)
    (hne : parse_naver_page doc q today ≠ [])
    (hcap : ¬ cap ≤ count + (parse_naver_page doc q today).length) :
    naverQueryGo fO maxR q today cap rand count pos (p :: rest)
      = ⟨parse_naver_page doc q today
          ++ (naverQueryGo fO maxR q today cap rand
              (count + (parse_naver_page doc q today).length) (pos + 1) rest).arts,
        p :: (naverQueryGo fO maxR q today cap rand
              (count + (parse_naver_page doc q today).length) (pos + 1) rest).fetched,
        (naverQueryGo fO maxR q today cap rand
              (count + (parse_naver_page doc q today).length) (pos + 1) rest).pos,
        rand pos :: (naverQueryGo fO maxR q today cap rand
              (count + (parse_naver_page doc q today).length) (pos + 1) rest).delays⟩ := by
  have h1 : (parse_naver_page doc q today).isEmpty = false := by
    simpa [List.isEmpty_iff] using hne
  simp [naverQueryGo, hres, h1, hcap]

theorem naverFetchedPre (fO : Nat → Nat → Option NaverDoc) (maxR : Nat) (q today : String)
    (cap : Nat) (rand : Nat → Nat) :
    ∀ (pages : List Nat) (count pos : Nat),
      (naverQueryGo fO maxR q today cap rand count pos pages).fetched <+: pages := by
  intro pages
  induction pages with
  | nil => intro count pos; exact List.nil_prefix
  | cons p0 rest ih =>
    intro count pos
    cases hres : (retryGo (fO p0) 1 maxR).1 with
    | none =>
      rw [naverQueryGo_cons_none q today cap rand count pos rest hres]
      exact ⟨rest, rfl⟩
    | some doc =>
      by_cases hemp : parse_naver_page doc q today = []
      · rw [naverQueryGo_cons_empty cap rand count pos rest hres hemp]
        exact ⟨rest, rfl⟩
      · by_cases hcap : cap ≤ count + (parse_naver_page doc q today).length
        · rw [naverQueryGo_cons_cap rand pos rest hres hemp hcap]
          exact ⟨rest, rfl⟩
        · rw [naverQueryGo_cons_cont rand pos rest hres hemp hcap]
          obtain ⟨t, ht⟩ := ih (count + (parse_naver_page doc q today).length) (pos + 1)
          exact ⟨t, by simpa using ht⟩

theorem naverBadPageLast (fO : Nat → Nat → Option NaverDoc) (maxR : Nat) (q today : String)
    (cap : Nat) (rand : Nat → Nat) (p : Nat)
    (hbad : (retryGo (fO p) 1 maxR).1 = none ∨
      ∃ doc, (retryGo (fO p) 1 maxR).1 = some doc ∧ parse_naver_page doc q today = []) :
    ∀ (pages : List Nat) (count pos : Nat),
      p ∈ (naverQueryGo fO maxR q today cap rand count pos pages).fetched →
      (naverQueryGo fO maxR q today cap rand count pos pages).fetched.getLast? = some p := by
  intro pages
  induction pages with
  | nil => intro count pos hmem; simp [naverQueryGo_nil] at hmem
  | cons p0 rest ih =>
    intro count pos hmem
    cases hres : (retryGo (fO p0) 1 maxR).1 with
    | none =>
      rw [naverQueryGo_cons_none q today cap rand count pos rest hres] at hmem ⊢
      have : p = p0 := by simpa using hmem
      simp [this]
    | some doc =>
      by_cases hemp : parse_naver_page doc q today = []
      · rw [naverQueryGo_cons_empty cap rand count pos rest hres hemp] at hmem ⊢
        have : p = p0 := by simpa using hmem
        simp [this]
      · by_cases hcap : cap ≤ count + (parse_naver_page doc q today).length
        · rw [naverQueryGo_cons_cap rand pos rest hres hemp hcap] at hmem ⊢
          have : p = p0 := by simpa using hmem
          simp [this]
        · rw [naverQueryGo_cons_cont rand pos rest hres hemp hcap] at hmem ⊢
          rcases List.mem_cons.mp hmem with rfl | hmem'
          · exfalso
            rcases hbad with hnone | ⟨doc', hdoc', hpar⟩
            · rw [hres] at hnone; cases hnone
            · rw [hres] at hdoc'
              have : doc = doc' := by injection hdoc'
              subst this
              exact hemp hpar
          · have hlast := ih (count + (parse_naver_page doc q today).length) (pos + 1) hmem'
            cases hrf : (naverQueryGo fO maxR q today cap rand
                (count + (parse_naver_page doc q today).length) (pos + 1) rest).fetched with
            | nil => rw [hrf] at hmem'; cases hmem'
            | cons b t =>
              rw [hrf] at hlast
              rw [List.getLast?_cons_cons, hlast]

/-- C5: if a page `p` that the per-query loop actually fetched either
failed to fetch (the retrying `_get` returned no result) or parsed to
zero items, then every page fetched for that query is at most `p`: no
later page is fetched, whatever page budget remains. -/
theorem paginationTermination (fO : Nat → Nat → Option NaverDoc) (maxR : Nat) (q today : String)
    (cap : Nat) (rand : Nat → Nat) (maxPages p p' : Nat)
    (hbad : (retryGo (fO p) 1 maxR).1 = none ∨
      ∃ doc, (retryGo (fO p) 1 maxR).1 = some doc ∧ parse_naver_page doc q today = [])
    (hmem : p ∈ (naverQueryGo fO maxR q today cap rand 0 0 (List.range maxPages)).fetched)
    (hmem' : p' ∈ (naverQueryGo fO maxR q today cap rand 0 0 (List.range maxPages)).fetched) :
    p' ≤ p := by
  have hlast := naverBadPageLast fO maxR q today cap rand p hbad (List.range maxPages) 0 0 hmem
  have hpre := naverFetchedPre fO maxR q today cap rand (List.range maxPages) 0 0
  have hpw : (naverQueryGo fO maxR q today cap rand 0 0 (List.range maxPages)).fetched.Pairwise
      (· < ·) := (List.pairwise_lt_range maxPages).sublist hpre.sublist
  exact pairwiseLtLast hpw hlast p' hmem'

/-- A current-layout container yielding one article. -/
def goodCard : Card := ⟨[⟨"Health News Headline", "https://n.news.naver.com/a/1"⟩], []⟩

/-- A second container yielding one article. -/
def goodCard2 : Card := ⟨[⟨"Second Health Story", "https://news.example.com/articleView?id=2"⟩], []⟩

/-- A page parsing to exactly one article. -/
def goodDoc : NaverDoc := ⟨[goodCard], [], []⟩

/-- A page parsing to exactly two articles. -/
def twoItemDoc : NaverDoc := ⟨[goodCard, goodCard2], [], []⟩

/-- Network oracle: page 0 succeeds immediately, every later page fails
on all attempts. -/
def fetchFailAfter0 : Nat → Nat → Option NaverDoc :=
  fun p _ => if p = 0 then some goodDoc else none

/-- Witness for C5: with three pages budgeted and page 1 failing, the
loop fetches pages 0 and 1 only, and every fetched page is ≤ 1. -/
theorem paginationTerminationWitness :
    1 ∈ (naverQueryGo fetchFailAfter0 3 "flu" "2026-02-03" 100 (fun _ => 0) 0 0
        (List.range 3)).fetched ∧
    0 ∈ (naverQueryGo fetchFailAfter0 3 "flu" "2026-02-03" 100 (fun _ => 0) 0 0
        (List.range 3)).fetched ∧
    (0 : Nat) ≤ 1 := by
  refine ⟨by decide, by decide, ?_⟩
  exact paginationTermination fetchFailAfter0 3 "flu" "2026-02-03" 100 (fun _ => 0) 3 1 0
    (Or.inl rfl) (by decide) (by decide)

/-- Network oracle: every page of the query returns the two-item page. -/
def fetchTwoItems : Nat → Nat → Option NaverDoc := fun _ _ => some twoItemDoc

/-- Network oracle: every fetch fails on every attempt. -/
def fetchNever : Nat → Nat → Option NaverDoc := fun _ _ => none

/-- Counterexample to C1 as stated: with `MAX_ARTICLES_PER_QUERY = 1`
and a first page parsing to two items, the query retains two items —
the cap check runs only after a whole page has been appended, so the
retained count exceeds the cap. -/
theorem perQueryCapExceeded :
    (naverQueryGo fetchTwoItems 3 "flu" "2026-02-03" 1 (fun _ => 0) 0 0
        (List.range 3)).arts.length = 2 ∧
    ¬ (naverQueryGo fetchTwoItems 3 "flu" "2026-02-03" 1 (fun _ => 0) 0 0
        (List.range 3)).arts.length ≤ 1 := by
  refine ⟨by decide, by decide⟩

theorem naverCapBound (fO : Nat → Nat → Option NaverDoc) (maxR : Nat) (q today : String)
    (cap : Nat) (rand : Nat → Nat) (k : Nat)
    (hk : ∀ p doc, (retryGo (fO p) 1 maxR).1 = some doc →
      (parse_naver_page doc q today).length ≤ k) :
    ∀ (pages : List Nat) (count pos : Nat), count < cap →
      (naverQueryGo fO maxR q today cap rand count pos pages).arts.length + count
        ≤ cap - 1 + k := by
  intro pages
  induction pages with
  | nil => intro count pos hcount; rw [naverQueryGo_nil]; simp; omega
  | cons p0 rest ih =>
    intro count pos hcount
    cases hres : (retryGo (fO p0) 1 maxR).1 with
    | none =>
      rw [naverQueryGo_cons_none q today cap rand count pos rest hres]
      simp
      omega
    | some doc =>
      have hlen := hk p0 doc hres
      by_cases hemp : parse_naver_page doc q today = []
      · rw [naverQueryGo_cons_empty cap rand count pos rest hres hemp]
        simp
        omega
      · by_cases hcap : cap ≤ count + (parse_naver_page doc q today).length
        · rw [naverQueryGo_cons_cap rand pos rest hres hemp hcap]
          simp
          omega
        · rw [naverQueryGo_cons_cont rand pos rest hres hemp hcap]
          have hrec := ih (count + (parse_naver_page doc q today).length) (pos + 1) (by omega)
          simp only [List.length_append]
          omega

/-- C1 amended: the per-query loop may overshoot the cap by less than
one page — with at most `k` items per parsed page and `cap ≥ 1`, the
items retained for a query never exceed `cap - 1 + k` (the count was
below the cap before the final page was appended whole). -/
theorem perQueryCapWithinOnePage (fO : Nat → Nat → Option NaverDoc) (maxR : Nat)
    (q today : String) (cap maxPages : Nat) (rand : Nat → Nat) (k : Nat) (hcap : 1 ≤ cap)
    (hk : ∀ p doc, (retryGo (fO p) 1 maxR).1 = some doc →
      (parse_naver_page doc q today).length ≤ k) :
    (naverQueryGo fO maxR q today cap rand 0 0 (List.range maxPages)).arts.length
      ≤ cap - 1 + k := by
  have h := naverCapBound fO maxR q today cap rand k hk (List.range maxPages) 0 0 (by omega)
  omega

/-- Witness for C1 (amended): the two-item oracle with `cap = 3`,
`k = 2` retains at most `3 - 1 + 2` items. -/
theorem perQueryCapWithinOnePageWitness :
    (1 : Nat) ≤ 3 ∧
    (naverQueryGo fetchTwoItems 3 "flu" "2026-02-03" 3 (fun _ => 0) 0 0
        (List.range 5)).arts.length ≤ 3 - 1 + 2 := by
  refine ⟨by decide, ?_⟩
  exact perQueryCapWithinOnePage fetchTwoItems 3 "flu" "2026-02-03" 3 5 (fun _ => 0) 2
    (by decide)
    (fun p doc h => by
      have hd : doc = twoItemDoc := by
        have : (some twoItemDoc : Option NaverDoc) = some doc := by
          rw [← h]; rfl
        injection this with h2
        exact h2.symm
      subst hd
      decide)

theorem naverQueryGoRandIndep (fO : Nat → Nat → Option NaverDoc) (maxR : Nat)
    (q today : String) (cap : Nat) (r1 r2 : Nat → Nat) :
    ∀ (pages : List Nat) (count pos : Nat),
      (naverQueryGo fO maxR q today cap r1 count pos pages).arts
          = (naverQueryGo fO maxR q today cap r2 count pos pages).arts ∧
      (naverQueryGo fO maxR q today cap r1 count pos pages).fetched
          = (naverQueryGo fO maxR q today cap r2 count pos pages).fetched ∧
      (naverQueryGo fO maxR q today cap r1 count pos pages).pos
          = (naverQueryGo fO maxR q today cap r2 count pos pages).pos := by
  intro pages
  induction pages with
  | nil => intro count pos; simp [naverQueryGo_nil]
  | cons p0 rest ih =>
    intro count pos
    cases hres : (retryGo (fO p0) 1 maxR).1 with
    | none =>
      rw [naverQueryGo_cons_none q today cap r1 count pos rest hres,
        naverQueryGo_cons_none q today cap r2 count pos rest hres]
      exact ⟨rfl, rfl, rfl⟩
    | some doc =>
      by_cases hemp : parse_naver_page doc q today = []
      · rw [naverQueryGo_cons_empty cap r1 count pos rest hres hemp,
          naverQueryGo_cons_empty cap r2 count pos rest hres hemp]
        exact ⟨rfl, rfl, rfl⟩
      · by_cases hcap : cap ≤ count + (parse_naver_page doc q today).length
        · rw [naverQueryGo_cons_cap r1 pos rest hres hemp hcap,
            naverQueryGo_cons_cap r2 pos rest hres hemp hcap]
          exact ⟨rfl, rfl, rfl⟩
        · rw [naverQueryGo_cons_cont r1 pos rest hres hemp hcap,
            naverQueryGo_cons_cont r2 pos rest hres hemp hcap]
          obtain ⟨ha, hf, hp⟩ := ih (count + (parse_naver_page doc q today).length) (pos + 1)
          exact ⟨by rw [ha], by rw [hf], by rw [hp]⟩

theorem collectNaverRandIndep (fO : String → Nat → Nat → Option NaverDoc) (maxR : Nat)
    (today : String) (cap maxPages : Nat) (r1 r2 : Nat → Nat) :
    ∀ (queries : List String) (pos : Nat),
      (collect_naver_news fO maxR today cap maxPages r1 queries pos).arts
          = (collect_naver_news fO maxR today cap maxPages r2 queries pos).arts ∧
      (collect_naver_news fO maxR today cap maxPages r1 queries pos).pos
          = (collect_naver_news fO maxR today cap maxPages r2 queries pos).pos := by
  intro queries
  induction queries with
  | nil => intro pos; simp [collect_naver_news]
  | cons q qs ih =>
    intro pos
    obtain ⟨ha, hf, hp⟩ :=
      naverQueryGoRandIndep (fO q) maxR q today cap r1 r2 (List.range maxPages) 0 pos
    obtain ⟨ha', hp'⟩ := ih ((naverQueryGo (fO q) maxR q today cap r2 0 pos
      (List.range maxPages)).pos + 1)
    constructor
    · show (naverQueryGo (fO q) maxR q today cap r1 0 pos (List.range maxPages)).arts
          ++ (collect_naver_news fO maxR today cap maxPages r1 qs
            ((naverQueryGo (fO q) maxR q today cap r1 0 pos (List.range maxPages)).pos + 1)).arts
        = (naverQueryGo (fO q) maxR q today cap r2 0 pos (List.range maxPages)).arts
          ++ (collect_naver_news fO maxR today cap maxPages r2 qs
            ((naverQueryGo (fO q) maxR q today cap r2 0 pos (List.range maxPages)).pos + 1)).arts
      rw [ha, hp, ha']
    · show (collect_naver_news fO maxR today cap maxPages r1 qs
            ((naverQueryGo (fO q) maxR q today cap r1 0 pos (List.range maxPages)).pos + 1)).pos
        = (collect_naver_news fO maxR today cap maxPages r2 qs
            ((naverQueryGo (fO q) maxR q today cap r2 0 pos (List.range maxPages)).pos + 1)).pos
      rw [hp, hp']

theorem collectGoogleRandIndep (feeds : String → Option (List Entry))
    (getText : String → String) (today : String) (cap : Nat) (r1 r2 : Nat → Nat) :
    ∀ (queries : List String) (pos : Nat),
      (collect_google_news feeds getText today cap r1 queries pos).arts
          = (collect_google_news feeds getText today cap r2 queries pos).arts ∧
      (collect_google_news feeds getText today cap r1 queries pos).pos
          = (collect_google_news feeds getText today cap r2 queries pos).pos := by
  intro queries
  induction queries with
  | nil => intro pos; simp [collect_google_news]
  | cons q qs ih =>
    intro pos
    obtain ⟨ha, hp⟩ := ih (pos + 1)
    cases hfd : feeds q with
    | none => simp [collect_google_news, hfd, ha, hp]
    | some entries => simp [collect_google_news, hfd, ha, hp]

/-- C10: for a fixed network oracle, feed oracle and run date, the
output article sequence of `collect_all_news` is identical for any two
random politeness-delay streams: the random draws influence the delay
trace only, never the emitted records or their order. -/
theorem randomDelaysDoNotAffectOutput (fO : String → Nat → Nat → Option NaverDoc)
    (feeds : String → Option (List Entry)) (getText : String → String)
    (queries : List String) (today : String) (cap maxPages maxR : Nat) (r1 r2 : Nat → Nat) :
    (collect_all_news fO feeds getText queries today cap maxPages maxR r1).1
      = (collect_all_news fO feeds getText queries today cap maxPages maxR r2).1 := by
  obtain ⟨hna, hnp⟩ := collectNaverRandIndep fO maxR today cap maxPages r1 r2 queries 0
  obtain ⟨hga, _⟩ := collectGoogleRandIndep feeds getText today cap r1 r2 queries
    ((collect_naver_news fO maxR today cap maxPages r2 queries 0).pos)
  show dedup ((collect_naver_news fO maxR today cap maxPages r1 queries 0).arts
      ++ (collect_google_news feeds getText today cap r1 queries
        (collect_naver_news fO maxR today cap maxPages r1 queries 0).pos).arts)
    = dedup ((collect_naver_news fO maxR today cap maxPages r2 queries 0).arts
      ++ (collect_google_news feeds getText today cap r2 queries
        (collect_naver_news fO maxR today cap maxPages r2 queries 0).pos).arts)
  rw [hna, hnp, hga]

theorem naverQueryGoArtsFrom (fO : Nat → Nat → Option NaverDoc) (maxR : Nat)
    (q today : String) (cap : Nat) (rand : Nat → Nat) :
    ∀ (pages : List Nat) (count pos : Nat) (a : Article),
      a ∈ (naverQueryGo fO maxR q today cap rand count pos pages).arts →
      ∃ doc, a ∈ parse_naver_page doc q today := by
  intro pages
  induction pages with
  | nil => intro count pos a ha; rw [naverQueryGo_nil] at ha; cases ha
  | cons p0 rest ih =>
    intro count pos a ha
    cases hres : (retryGo (fO p0) 1 maxR).1 with
    | none =>
      rw [naverQueryGo_cons_none q today cap rand count pos rest hres] at ha
      cases ha
    | some doc =>
      by_cases hemp : parse_naver_page doc q today = []
      · rw [naverQueryGo_cons_empty cap rand count pos rest hres hemp] at ha
        cases ha
      · by_cases hcap : cap ≤ count + (parse_naver_page doc q today).length
        · rw [naverQueryGo_cons_cap rand pos rest hres hemp hcap] at ha
          exact ⟨doc, ha⟩
        · rw [naverQueryGo_cons_cont rand pos rest hres hemp hcap] at ha
          rcases List.mem_append.mp ha with h | h
          · exact ⟨doc, h⟩
          · exact ih (count + (parse_naver_page doc q today).length) (pos + 1) a h

theorem collectNaverArtsFrom (fO : String → Nat → Nat → Option NaverDoc) (maxR : Nat)
    (today : String) (cap maxPages : Nat) (rand : Nat → Nat) :
    ∀ (queries : List String) (pos : Nat) (a : Article),
      a ∈ (collect_naver_news fO maxR today cap maxPages rand queries pos).arts →
      ∃ q doc, a ∈ parse_naver_page doc q today := by
  intro queries
  induction queries with
  | nil => intro pos a ha; simp [collect_naver_news] at ha
  | cons q qs ih =>
    intro pos a ha
    rcases List.mem_append.mp ha with h | h
    · obtain ⟨doc, hdoc⟩ := naverQueryGoArtsFrom (fO q) maxR q today cap rand
        (List.range maxPages) 0 pos a h
      exact ⟨q, doc, hdoc⟩
    · exact ih _ a h

theorem collectGoogleArtsFrom (feeds : String → Option (List Entry))
    (getText : String → String) (today : String) (cap : Nat) (rand : Nat → Nat) :
    ∀ (queries : List String) (pos : Nat) (a : Article),
      a ∈ (collect_google_news feeds getText today cap rand queries pos).arts →
      ∃ q e, a = entryArticle getText q today e := by
  intro queries
  induction queries with
  | nil => intro pos a ha; simp [collect_google_news] at ha
  | cons q qs ih =>
    intro pos a ha
    cases hfd : feeds q with
    | none =>
      rw [show (collect_google_news feeds getText today cap rand (q :: qs) pos).arts
          = (collect_google_news feeds getText today cap rand qs (pos + 1)).arts from by
        simp [collect_google_news, hfd]] at ha
      exact ih _ a ha
    | some entries =>
      rw [show (collect_google_news feeds getText today cap rand (q :: qs) pos).arts
          = (entries.take cap).map (entryArticle getText q today)
            ++ (collect_google_news feeds getText today cap rand qs (pos + 1)).arts from by
        simp [collect_google_news, hfd]] at ha
      rcases List.mem_append.mp ha with h | h
      · obtain ⟨e, _, he⟩ := List.mem_map.mp h
        exact ⟨q, e, he.symm⟩
      · exact ih _ a h

theorem newCardItemsShape (q today : String) (c : Card) :
    ∀ a ∈ newCardItems q today c,
      a.source = "naver" ∧ a.query = q ∧ a.date = today ∧
      (∃ r, a.title = trimStr r) ∧
      (a.description = "" ∨ ∃ r, a.description = trimStr r) ∧
      (a.published = today ∨ ∃ r, a.published = trimStr r) := by
  intro a ha
  cases hf : c.anchors.filter isArticleLink with
  | nil => simp [newCardItems, hf] at ha
  | cons t restL =>
    simp only [newCardItems, hf] at ha
    split at ha
    · cases ha
    · split at ha
      · have haeq := List.mem_singleton.mp ha
        subst haeq
        refine ⟨rfl, rfl, rfl, ⟨t.text, rfl⟩, ?_, ?_⟩
        · cases restL with
          | nil => left; rfl
          | cons d _ => right; exact ⟨d.text, rfl⟩
        · cases hfind : (c.infoSpans.map trimStr).find?
            (fun txt => timeKeywords.any (fun k => hasSubStr k txt)) with
          | none => left; simp [hfind]
          | some txt =>
            right
            have hmem := List.mem_of_find?_eq_some hfind
            obtain ⟨r, _, hr⟩ := List.mem_map.mp hmem
            exact ⟨r, by simp [hfind, hr.symm]⟩
      · cases ha

theorem oldItemArticleShape (q today : String) (it : OldItem) :
    ∀ a ∈ oldItemArticle q today it,
      a.source = "naver" ∧ a.query = q ∧ a.date = today ∧
      (∃ r, a.title = trimStr r) ∧
      (a.description = "" ∨ ∃ r, a.description = trimStr r) ∧
      (a.published = today ∨ ∃ r, a.published = trimStr r) := by
  intro a ha
  cases ht : it.titleTag with
  | none => simp [oldItemArticle, ht] at ha
  | some t =>
    simp only [oldItemArticle, ht] at ha
    have haeq := List.mem_singleton.mp ha
    subst haeq
    refine ⟨rfl, rfl, rfl, ⟨t.text, rfl⟩, ?_, ?_⟩
    · cases hd : it.descA <|> it.descB <|> it.descC with
      | none => left; simp [hd]
      | some r => right; exact ⟨r, by simp [hd]⟩
    · cases hd : it.dateA <|> it.dateB with
      | none => left; simp [hd]
      | some r => right; exact ⟨r, by simp [hd]⟩

theorem parseNaverShape (doc : NaverDoc) (q today : String) :
    ∀ a ∈ parse_naver_page doc q today,
      a.source = "naver" ∧ a.query = q ∧ a.date = today ∧
      (∃ r, a.title = trimStr r) ∧
      (a.description = "" ∨ ∃ r, a.description = trimStr r) ∧
      (a.published = today ∨ ∃ r, a.published = trimStr r) := by
  intro a ha
  cases he : doc.newCards.isEmpty with
  | true =>
    simp only [parse_naver_page, he, if_true] at ha
    obtain ⟨it, _, hit⟩ := List.mem_flatMap.mp ha
    exact oldItemArticleShape q today it a hit
  | false =>
    simp only [parse_naver_page, he, if_false] at ha
    obtain ⟨c, _, hc⟩ := List.mem_flatMap.mp ha
    exact newCardItemsShape q today c a hc

theorem dedupGoMem :
    ∀ (l : List Article) (seen : List String) (a : Article),
      a ∈ dedupGo seen l → a ∈ l ∧ dedupKey a ≠ "" := by
  intro l
  induction l with
  | nil => intro seen a ha; simp [dedupGo] at ha
  | cons a0 rest ih =>
    intro seen a ha
    rw [dedupGo] at ha
    split at ha
    · rename_i hcond
      rcases List.mem_cons.mp ha with rfl | h
      · exact ⟨List.mem_cons_self a rest, hcond.1⟩
      · obtain ⟨hm, hk⟩ := ih (dedupKey a0 :: seen) a h
        exact ⟨List.mem_cons_of_mem a0 hm, hk⟩
    · obtain ⟨hm, hk⟩ := ih seen a ha
      exact ⟨List.mem_cons_of_mem a0 hm, hk⟩

theorem dedupGoKeysNodup :
    ∀ (l : List Article) (seen : List String),
      ((dedupGo seen l).map dedupKey).Nodup ∧
        ∀ k ∈ (dedupGo seen l).map dedupKey, k ∉ seen := by
  intro l
  induction l with
  | nil => intro seen; simp [dedupGo]
  | cons a0 rest ih =>
    intro seen
    rw [dedupGo]
    split
    · rename_i hcond
      obtain ⟨hnd, hnotin⟩ := ih (dedupKey a0 :: seen)
      refine ⟨?_, ?_⟩
      · rw [List.map_cons, List.nodup_cons]
        refine ⟨fun hmem => ?_, hnd⟩
        exact (hnotin (dedupKey a0) hmem) (List.mem_cons_self _ _)
      · intro k hk
        rw [List.map_cons] at hk
        rcases List.mem_cons.mp hk with rfl | h
        · exact hcond.2
        · intro hks
          exact (hnotin k h) (List.mem_cons_of_mem _ hks)
    · exact ih seen

theorem dedupGoEmptyIff :
    ∀ (l : List Article) (seen : List String),
      dedupGo seen l = [] ↔ ∀ a ∈ l, dedupKey a = "" ∨ dedupKey a ∈ seen := by
  intro l
  induction l with
  | nil => intro seen; simp [dedupGo]
  | cons a0 rest ih =>
    intro seen
    rw [dedupGo]
    split
    · rename_i hcond
      constructor
      · intro h; cases h
      · intro h
        rcases h a0 (List.mem_cons_self _ _) with hk | hk
        · exact absurd hk hcond.1
        · exact absurd hk hcond.2
    · rename_i hcond
      rw [ih seen]
      constructor
      · intro h a ha
        rcases List.mem_cons.mp ha with rfl | ha'
        · by_cases hk : dedupKey a = ""
          · exact Or.inl hk
          · by_cases hs : dedupKey a ∈ seen
            · exact Or.inr hs
            · exact absurd ⟨hk, hs⟩ hcond
        · exact h a ha'
      · intro h a ha
        exact h a (List.mem_cons_of_mem _ ha)

theorem lowerStrEmpty (s : String) : lowerStr s = "" → s = "" := by
  cases s with
  | mk l =>
    intro h
    have hd : List.map Char.toLower l = [] := congrArg String.data h
    have hl : l = [] := List.map_eq_nil_iff.mp hd
    rw [hl]

theorem collect_all_news_fst (fO : String → Nat → Nat → Option NaverDoc)
    (feeds : String → Option (List Entry)) (getText : String → String)
    (queries : List String) (today : String) (cap maxPages maxR : Nat) (rand : Nat → Nat) :
    (collect_all_news fO feeds getText queries today cap maxPages maxR rand).1
      = dedup ((collect_naver_news fO maxR today cap maxPages rand queries 0).arts
        ++ (collect_google_news feeds getText today cap rand queries
            (collect_naver_news fO maxR today cap maxPages rand queries 0).pos).arts) := rfl

/-- C4: every record emitted by `collect_all_news` has a title that is
non-empty after trimming, a `source` that is one of the two provider
values of the source enum (`"naver"` = page source, `"google"` = feed
source), and the dedup keys `lowercase(trim(title))` are pairwise
distinct across the whole returned sequence. -/
theorem outputInvariants (fO : String → Nat → Nat → Option NaverDoc)
    (feeds : String → Option (List Entry)) (getText : String → String)
    (queries : List String) (today : String) (cap maxPages maxR : Nat) (rand : Nat → Nat) :
    (∀ a ∈ (collect_all_news fO feeds getText queries today cap maxPages maxR rand).1,
      trimStr a.title ≠ "" ∧ (a.source = "naver" ∨ a.source = "google")) ∧
    (((collect_all_news fO feeds getText queries today cap maxPages maxR rand).1).map
      dedupKey).Nodup := by
  constructor
  · intro a ha
    rw [collect_all_news_fst] at ha
    have hm := dedupGoMem _ [] a ha
    constructor
    · intro htrim
      apply hm.2
      rw [dedupKey, htrim]
      rfl
    · rcases List.mem_append.mp hm.1 with h | h
      · obtain ⟨q', doc, hd⟩ :=
          collectNaverArtsFrom fO maxR today cap maxPages rand queries 0 a h
        exact Or.inl (parseNaverShape doc q' today a hd).1
      · obtain ⟨q', e, he⟩ := collectGoogleArtsFrom feeds getText today cap rand queries _ a h
        exact Or.inr (by rw [he]; rfl)
  · rw [collect_all_news_fst]
    exact (dedupGoKeysNodup _ []).1

/-- The single article parsed from `goodDoc`. -/
def artEx : Article :=
  ⟨"2026-02-03", "naver", "flu", "Health News Headline", "",
    "https://n.news.naver.com/a/1", "2026-02-03"⟩

/-- Witness for C4 on a concrete run collecting exactly `artEx`. -/
theorem outputInvariantsWitness :
    trimStr artEx.title ≠ "" ∧ (artEx.source = "naver" ∨ artEx.source = "google") :=
  (outputInvariants (fun _ => fetchFailAfter0) (fun _ => none) trimStr ["flu"] "2026-02-03"
    30 3 3 (fun _ => 0)).1 artEx (by decide)

/-- C8: the run is escalated to a hard stop exactly when the collection
entry point returns an empty sequence; equivalently, when no collected
record (from any query, page source or feed source) has a non-empty
normalized title — and any single such record prevents the hard stop, so
per-query network failures and feed-parse failures (which merely
contribute no records) never abort the run on their own. -/
theorem fatalOnlyWhenEmpty (fO : String → Nat → Nat → Option NaverDoc)
    (feeds : String → Option (List Entry)) (getText : String → String)
    (queries : List String) (today : String) (cap maxPages maxR : Nat) (rand : Nat → Nat) :
    (mainAborts fO feeds getText queries today cap maxPages maxR rand = true ↔
      (collect_all_news fO feeds getText queries today cap maxPages maxR rand).1 = []) ∧
    ((collect_all_news fO feeds getText queries today cap maxPages maxR rand).1 = [] ↔
      ∀ a ∈ (collect_naver_news fO maxR today cap maxPages rand queries 0).arts
          ++ (collect_google_news feeds getText today cap rand queries
            (collect_naver_news fO maxR today cap maxPages rand queries 0).pos).arts,
        dedupKey a = "") ∧
    (∀ a ∈ (collect_naver_news fO maxR today cap maxPages rand queries 0).arts
        ++ (collect_google_news feeds getText today cap rand queries
          (collect_naver_news fO maxR today cap maxPages rand queries 0).pos).arts,
      dedupKey a ≠ "" →
      mainAborts fO feeds getText queries today cap maxPages maxR rand = false) := by
  refine ⟨List.isEmpty_iff, ?_, ?_⟩
  · rw [collect_all_news_fst]
    rw [show dedup ((collect_naver_news fO maxR today cap maxPages rand queries 0).arts
        ++ (collect_google_news feeds getText today cap rand queries
          (collect_naver_news fO maxR today cap maxPages rand queries 0).pos).arts)
      = dedupGo [] ((collect_naver_news fO maxR today cap maxPages rand queries 0).arts
        ++ (collect_google_news feeds getText today cap rand queries
          (collect_naver_news fO maxR today cap maxPages rand queries 0).pos).arts) from rfl]
    rw [dedupGoEmptyIff]
    simp
  · intro a ha hk
    cases hb : mainAborts fO feeds getText queries today cap maxPages maxR rand with
    | false => rfl
    | true =>
      exfalso
      have hempty : (collect_all_news fO feeds getText queries today cap maxPages maxR
          rand).1 = [] := List.isEmpty_iff.mp hb
      rw [collect_all_news_fst] at hempty
      rcases (dedupGoEmptyIff _ []).mp hempty a ha with h | h
      · exact hk h
      · cases h

/-- A feed entry with a clean non-empty title. -/
def entryGood : Entry := ⟨some "Seasonal Flu Advisory", none, none, none⟩

/-- Witness for C8: every page fetch fails, but one feed record with a
non-empty title prevents the hard stop. -/
theorem fatalOnlyWhenEmptyWitness :
    mainAborts (fun _ => fetchNever) (fun _ => some [entryGood]) trimStr ["flu"] "2026-02-03"
      30 3 3 (fun _ => 0) = false := by
  apply (fatalOnlyWhenEmpty (fun _ => fetchNever) (fun _ => some [entryGood]) trimStr ["flu"]
    "2026-02-03" 30 3 3 (fun _ => 0)).2.2 (entryArticle trimStr "flu" "2026-02-03" entryGood)
  · decide
  · decide

theorem dropWhileStableOfStable {p : Char → Bool} {x : List Char}
    (hx : List.dropWhile p x = x) :
    List.dropWhile p (List.rdropWhile p x) = List.rdropWhile p x := by
  cases x with
  | nil => simp
  | cons b t =>
    have hb : p b = false := by
      by_contra hpb
      rw [Bool.not_eq_false] at hpb
      rw [List.dropWhile_cons, if_pos hpb] at hx
      have hlen := congrArg List.length hx
      have hle : (List.dropWhile p t).length ≤ t.length :=
        List.Sublist.length_le (List.dropWhile_sublist _)
      simp at hlen
      omega
    cases hr : List.rdropWhile p (b :: t) with
    | nil => simp
    | cons c u =>
      have hpre := List.rdropWhile_prefix p (b :: t)
      rw [hr] at hpre
      obtain ⟨t2, ht2⟩ := hpre
      have hcb : c = b := by
        have h' : c :: (u ++ t2) = b :: t := by simpa using ht2
        exact (List.cons.injEq c (u ++ t2) b t ▸ h').1
      subst hcb
      rw [List.dropWhile_cons, if_neg (by simp [hb])]

theorem trimListIdem (l : List Char) : trimList (trimList l) = trimList l := by
  unfold trimList
  rw [dropWhileStableOfStable (List.dropWhile_idempotent wsChar l),
    List.rdropWhile_idempotent]

theorem trimStrIdem (s : String) : trimStr (trimStr s) = trimStr s := by
  show String.mk (trimList (trimList s.data)) = String.mk (trimList s.data)
  rw [trimListIdem]

theorem parseNaverTrimmed (doc : NaverDoc) (q today : String)
    (htoday : trimStr today = today) :
    ∀ a ∈ parse_naver_page doc q today,
      trimStr a.title = a.title ∧ trimStr a.description = a.description ∧
        trimStr a.published = a.published := by
  intro a ha
  obtain ⟨_, _, _, ⟨r, hr⟩, hdesc, hpub⟩ := parseNaverShape doc q today a ha
  refine ⟨by rw [hr, trimStrIdem], ?_, ?_⟩
  · rcases hdesc with h | ⟨r', hr'⟩
    · rw [h]; rfl
    · rw [hr', trimStrIdem]
  · rcases hpub with h | ⟨r', hr'⟩
    · rw [h, htoday]
    · rw [hr', trimStrIdem]

/-- A feed entry whose raw fields carry stray whitespace; its title
keeps a trailing space after suffix-stripping. -/
def entryDirty : Entry :=
  ⟨some " Flu  - News ", some "<b>x</b>", some " https://g/x ", some " 1 hour ago "⟩

/-- Counterexample to C7 as stated: a record emitted by the public
entry point whose title (after publisher-suffix stripping), link and
published fields all retain leading or trailing whitespace. -/
theorem emittedFieldNotTrimmed :
    ∃ a ∈ (collect_all_news (fun _ => fetchNever) (fun _ => some [entryDirty]) trimStr
        ["flu"] "2026-02-03" 30 3 3 (fun _ => 0)).1,
      trimStr a.title ≠ a.title ∧ trimStr a.link ≠ a.link ∧
        trimStr a.published ≠ a.published := by decide

/-- C7 amended: the markup-derived text fields are trimmed — page-source
title, description and published (given a trimmed run date), and the
feed-source description (given that the markup-stripping primitive
returns trimmed text) — while the feed-source title is exactly the
suffix-stripped trimmed raw title (which may retain interior-adjacent
trailing whitespace), and link / feed published / query are propagated
verbatim. -/
theorem emittedFieldsTrimmed (fO : String → Nat → Nat → Option NaverDoc)
    (feeds : String → Option (List Entry)) (getText : String → String)
    (queries : List String) (today : String) (cap maxPages maxR : Nat) (rand : Nat → Nat)
    (hgt : ∀ s, trimStr (getText s) = getText s) (htoday : trimStr today = today) :
    (∀ a ∈ (collect_naver_news fO maxR today cap maxPages rand queries 0).arts,
      trimStr a.title = a.title ∧ trimStr a.description = a.description ∧
        trimStr a.published = a.published) ∧
    (∀ a ∈ (collect_google_news feeds getText today cap rand queries 0).arts,
      trimStr a.description = a.description ∧
        ∃ e : Entry, a.title = cleanTitle (trimStr (e.title.getD ""))) := by
  constructor
  · intro a ha
    obtain ⟨q', doc, hd⟩ := collectNaverArtsFrom fO maxR today cap maxPages rand queries 0 a ha
    exact parseNaverTrimmed doc q' today htoday a hd
  · intro a ha
    obtain ⟨q', e, he⟩ := collectGoogleArtsFrom feeds getText today cap rand queries 0 a ha
    subst he
    exact ⟨hgt _, e, rfl⟩

/-- Witness for C7 (amended) on the concrete run collecting `artEx`. -/
theorem emittedFieldsTrimmedWitness :
    trimStr artEx.title = artEx.title ∧ trimStr artEx.description = artEx.description ∧
      trimStr artEx.published = artEx.published :=
  (emittedFieldsTrimmed (fun _ => fetchFailAfter0) (fun _ => none) trimStr ["flu"]
    "2026-02-03" 30 3 3 (fun _ => 0) trimStrIdem (by decide)).1 artEx (by decide)
